import Mathlib

/-!
Verification development for the multi-month sales dashboard (`src/app.py`).

The program is a single script: it ingests a ZIP of monthly Excel sheets,
builds an outer-join month-over-month comparison with growth percentages and
alert labels, fits a per-product ordinary-least-squares trend on
(calendar-ordinal date, quantity) pairs, projects 30 days ahead for a
selected product, and builds a one-prediction-per-product forecast summary.

The embedding below follows the source line by line:
* floating-point columns are modelled as exact rationals (ℚ); the pandas
  NaN produced by `replace(0, np.nan)` followed by division is modelled as
  `Option ℚ` with `none` for NaN;
* Python `round` (banker's rounding, half to even) is `pyRound`;
* `datetime.toordinal`, `pd.Timedelta(days=1)` and `pd.DateOffset(months=1)`
  are modelled on a proleptic-Gregorian `Date` structure;
* `sklearn.linear_model.LinearRegression().fit(X, y)` on one feature with
  `fit_intercept=True` centers the data and solves least squares; in exact
  arithmetic the fitted coefficient on a non-degenerate series is
  Σ(x-x̄)(y-ȳ) / Σ(x-x̄)² and the intercept is ȳ − slope·x̄.  `fitSlope` /
  `fitIntercept` embed that; `ols_is_least_squares` below proves this is
  the residual-sum-of-squares minimiser, and with ℚ division-by-zero = 0
  the degenerate (all-identical abscissa) case also agrees with the
  library's minimum-norm answer (coefficient 0, intercept = mean y).
-/

/-! ### Python `round` (half to even) and `round(x, 2)` -/

/-- Python `round(x)`: nearest integer, ties to the even integer. -/
def pyRound (q : ℚ) : ℤ :=
  let f : ℤ := ⌊q⌋
  let r : ℚ := q - f
  if r < 1/2 then f
  else if 1/2 < r then f + 1
  else if f % 2 = 0 then f else f + 1

/-- Python `round(x, 2)`: banker's rounding at two decimal places. -/
def round2 (q : ℚ) : ℚ := (pyRound (q * 100) : ℚ) / 100

/-! ### Ordinary least squares on (abscissa, ordinate) pairs

`model.fit(hist[["Date_Ordinal"]], hist["Quantity_Sold"])` with the default
`fit_intercept=True`. -/

/-- Mean of the abscissas (regression feature). -/
def xbar (l : List (ℚ × ℚ)) : ℚ := (l.map Prod.fst).sum / l.length

/-- Mean of the ordinates (regression target). -/
def ybar (l : List (ℚ × ℚ)) : ℚ := (l.map Prod.snd).sum / l.length

/-- Centered sum of squares of the abscissas, Σ(x−x̄)². -/
def sxx (l : List (ℚ × ℚ)) : ℚ := (l.map fun p => (p.1 - xbar l) ^ 2).sum

/-- Centered cross sum, Σ(x−x̄)(y−ȳ). -/
def sxy (l : List (ℚ × ℚ)) : ℚ :=
  (l.map fun p => (p.1 - xbar l) * (p.2 - ybar l)).sum

/-- Fitted coefficient of the library's one-feature least-squares call. -/
def fitSlope (l : List (ℚ × ℚ)) : ℚ := sxy l / sxx l

/-- Fitted intercept of the library's one-feature least-squares call. -/
def fitIntercept (l : List (ℚ × ℚ)) : ℚ := ybar l - fitSlope l * xbar l

/-- `model.predict([[x]])`. -/
def predictAt (l : List (ℚ × ℚ)) (x : ℚ) : ℚ := fitSlope l * x + fitIntercept l

/-- Residual sum of squares of the affine candidate `y = a·x + b`. -/
def rss (l : List (ℚ × ℚ)) (a b : ℚ) : ℚ :=
  (l.map fun p => (p.2 - (a * p.1 + b)) ^ 2).sum

/-! Spec-side closed form (written from the spec's words, for the
refinement claim C4): slope = covariance(x, y) / variance(x),
intercept = mean(y) − slope × mean(x). -/

/-- Spec's `variance(ordinal)` (population variance). -/
def specVariance (l : List (ℚ × ℚ)) : ℚ := sxx l / l.length

/-- Spec's `covariance(ordinal, quantity)` (population covariance). -/
def specCovariance (l : List (ℚ × ℚ)) : ℚ := sxy l / l.length

/-- Spec's closed-form slope. -/
def specSlope (l : List (ℚ × ℚ)) : ℚ := specCovariance l / specVariance l

/-- Spec's closed-form intercept. -/
def specIntercept (l : List (ℚ × ℚ)) : ℚ := ybar l - specSlope l * xbar l

/-! ### Calendar: `datetime.toordinal`, `Timedelta(days=1)`, `DateOffset(months=1)` -/

/-- A proleptic-Gregorian calendar date. -/
structure Date where
  year : ℕ
  month : ℕ
  day : ℕ
deriving DecidableEq, Repr

/-- Gregorian leap-year rule. -/
def isLeap (y : ℕ) : Bool := (y % 4 == 0 && y % 100 != 0) || y % 400 == 0

/-- Days in a month of a given year. -/
def daysInMonth (y m : ℕ) : ℕ :=
  if m = 2 then (if isLeap y then 29 else 28)
  else if m = 4 ∨ m = 6 ∨ m = 9 ∨ m = 11 then 30
  else 31

/-- Days in year `y` before the first of month `m`. -/
def daysBeforeMonth (y m : ℕ) : ℕ :=
  ((List.range (m - 1)).map fun i => daysInMonth y (i + 1)).sum

/-- Python `datetime.toordinal`: day count with 0001-01-01 as day 1. -/
def toordinal (d : Date) : ℕ :=
  365 * (d.year - 1) + (d.year - 1) / 4 - (d.year - 1) / 100 + (d.year - 1) / 400
    + daysBeforeMonth d.year d.month + d.day

/-- `pd.DateOffset(months=1)`: advance one calendar month, clamping the
day-of-month to the target month's length. -/
def addMonths1 (d : Date) : Date :=
  if d.month = 12 then
    { year := d.year + 1, month := 1, day := min d.day (daysInMonth (d.year + 1) 1) }
  else
    { year := d.year, month := d.month + 1,
      day := min d.day (daysInMonth d.year (d.month + 1)) }

/-! ### Rows, tables and ZIP ingestion (`src/app.py` lines 17–36) -/

/-- One spreadsheet row: `Product_Name`, `Quantity_Sold`, `Sales_Value`. -/
structure Row where
  product : String
  qty : ℚ
  value : ℚ
deriving DecidableEq, Repr

/-- One archive entry: its filename, the columns of the sheet it holds, and
the rows read from it. -/
structure Entry where
  name : String
  cols : List String
  rows : List Row
deriving Repr

/-- The columns `app.py` requires of every sheet. -/
def requiredCols : List String := ["Product_Name", "Quantity_Sold", "Sales_Value"]

/-- Full English month names, the `%B` tokens (matched case-insensitively). -/
def monthNames : List String :=
  ["january", "february", "march", "april", "may", "june",
   "july", "august", "september", "october", "november", "december"]

/-- ASCII lower-casing of one character (all the string functions of the
source are modelled structurally on the underlying character list, so that
concrete runs evaluate). -/
def lowerChar (c : Char) : Char :=
  if 'A' ≤ c ∧ c ≤ 'Z' then Char.ofNat (c.toNat + 32) else c

/-- Python `name.endswith(".xlsx")`. -/
def endsWithXlsx (l : List Char) : Bool :=
  decide (l.reverse.take 5 = ['x', 's', 'l', 'x', '.'])

/-- Python `name.replace(".xlsx", "")`: delete every (left-to-right,
non-overlapping) occurrence of `.xlsx`. -/
def removeXlsx : List Char → List Char
  | '.' :: 'x' :: 'l' :: 's' :: 'x' :: rest => removeXlsx rest
  | c :: rest => c :: removeXlsx rest
  | [] => []

/-- Python `s.split("_")` on a single-character separator. -/
def splitOnUnderscore : List Char → List (List Char)
  | [] => [[]]
  | c :: rest =>
    if c = '_' then [] :: splitOnUnderscore rest
    else
      match splitOnUnderscore rest with
      | [] => [[c]]
      | h :: t => (c :: h) :: t

/-- The digit value of a character, if any. -/
def digitVal (c : Char) : Option ℕ :=
  if '0' ≤ c ∧ c ≤ '9' then some (c.toNat - 48) else none

/-- The `%Y` token: a nonempty all-digit string.  (The 4-digit width limit
of `strptime` and the pandas `Timestamp` year bounds are not modelled; no
claim depends on them.) -/
def parseNatChars (l : List Char) : Option ℕ :=
  if l.isEmpty then none
  else l.foldl (fun acc c => acc.bind fun n => (digitVal c).map fun d => n * 10 + d)
    (some 0)

/-- Month number of a `%B` token (matched case-insensitively), `none` when
the token is not a month name. -/
def monthNum (l : List Char) : Option ℕ :=
  (monthNames.findIdx? fun x => decide (x.data = l.map lowerChar)).map (· + 1)

/-- `parts = name.replace(".xlsx", "").split("_")`, then
`pd.to_datetime(parts[-2] + " " + parts[-1], format="%B %Y")`; the result is
the first day of the parsed month.  `none` models the exception caught by the
bare `except` (too few parts, unknown month name, non-numeric year). -/
def parseEntryDate (name : String) : Option Date :=
  match (splitOnUnderscore (removeXlsx name.data)).reverse with
  | ystr :: mstr :: _ =>
    match monthNum mstr, parseNatChars ystr with
    | some m, some y => some { year := y, month := m, day := 1 }
    | _, _ => none
  | _ => none

/-- `dfs[date] = df`: Python-dict insertion — an existing key keeps its
position and gets the new value, a new key is appended. -/
def dictInsert (d : Date) (rows : List Row) (dfs : List (Date × List Row)) :
    List (Date × List Row) :=
  if dfs.any (fun pr => decide (pr.1 = d)) then
    dfs.map (fun pr => if pr.1 = d then (d, rows) else pr)
  else dfs ++ [(d, rows)]

/-- One loop iteration of the ingestion loop (lines 20–33): accumulates the
warnings issued so far and the `dfs` dict. -/
def ingestStep (acc : List String × List (Date × List Row)) (e : Entry) :
    List String × List (Date × List Row) :=
  if endsWithXlsx e.name.data then
    if requiredCols.all (fun c => c ∈ e.cols) then
      match parseEntryDate e.name with
      | some d => (acc.1, dictInsert d e.rows acc.2)
      | none => (acc.1 ++ ["⚠️ Could not parse date from file: " ++ e.name], acc.2)
    else (acc.1 ++ ["❌ Skipping file " ++ e.name ++ " — missing required columns."], acc.2)
  else acc

/-- The ingestion loop over all archive entries. -/
def ingest (entries : List Entry) : List String × List (Date × List Row) :=
  entries.foldl ingestStep ([], [])

/-! ### Month-over-month comparison (lines 61–88) -/

/-- One row of the outer merge of the two latest snapshots, after
`.fillna(0)`. -/
structure MergedRow where
  Product_Name : String
  Quantity_Sold_curr : ℚ
  Sales_Value_curr : ℚ
  Quantity_Sold_prev : ℚ
  Sales_Value_prev : ℚ
deriving DecidableEq, Repr

/-- The merge rows contributed by one current-side row: paired with every
matching previous row, or zeros on the previous side when unmatched. -/
def mergeOne (prev : List Row) (rc : Row) : List MergedRow :=
  let ms := prev.filter fun rp => decide (rp.product = rc.product)
  if ms.isEmpty then
    [{ Product_Name := rc.product, Quantity_Sold_curr := rc.qty,
       Sales_Value_curr := rc.value, Quantity_Sold_prev := 0, Sales_Value_prev := 0 }]
  else
    ms.map fun rp =>
      { Product_Name := rc.product, Quantity_Sold_curr := rc.qty,
        Sales_Value_curr := rc.value, Quantity_Sold_prev := rp.qty,
        Sales_Value_prev := rp.value }

/-- The merge rows contributed by previous-only rows: zeros on the current
side. -/
def mergeRight (cur prev : List Row) : List MergedRow :=
  (prev.filter fun rp =>
      !(cur.any fun rc => decide (rc.product = rp.product))).map fun rp =>
    { Product_Name := rp.product, Quantity_Sold_curr := 0,
      Sales_Value_curr := 0, Quantity_Sold_prev := rp.qty,
      Sales_Value_prev := rp.value }

/-- `pd.merge(current, prev, on="Product_Name", how="outer").fillna(0)`.
(The claims checked below are membership- and count-based, so the pandas
key ordering of the output is not modelled.) -/
def outerMerge (cur prev : List Row) : List MergedRow :=
  (cur.map (mergeOne prev)).flatten ++ mergeRight cur prev

/-- `(curr - prev) / prev.replace(0, nan) * 100`: a zero denominator becomes
NaN and the division then yields NaN, modelled as `none`. -/
def growthPct (curr prev : ℚ) : Option ℚ :=
  if prev = 0 then none else some ((curr - prev) / prev * 100)

/-- `label_growth` (lines 80–86).  On NaN (`none`) both `g > 10` and
`g < -10` are false in IEEE semantics, so the final else branch fires and
the row is labelled Stable. -/
def label_growth (g : Option ℚ) : String :=
  match g with
  | some q => if 10 < q then "📈 Spike" else if q < -10 then "📉 Drop" else "✅ Stable"
  | none => "✅ Stable"

/-- One row of the comparison table shown and exported to CSV. -/
structure ComparisonRow where
  Product_Name : String
  Quantity_Sold_curr : ℚ
  Sales_Value_curr : ℚ
  Quantity_Sold_prev : ℚ
  Sales_Value_prev : ℚ
  Growth_Quantity_pct : Option ℚ
  Growth_Value_pct : Option ℚ
  Alert : String
deriving DecidableEq, Repr

/-- Lines 68–88: merge, growth columns, alert column. -/
def comparisonOf (cur prev : List Row) : List ComparisonRow :=
  (outerMerge cur prev).map fun m =>
    { Product_Name := m.Product_Name,
      Quantity_Sold_curr := m.Quantity_Sold_curr,
      Sales_Value_curr := m.Sales_Value_curr,
      Quantity_Sold_prev := m.Quantity_Sold_prev,
      Sales_Value_prev := m.Sales_Value_prev,
      Growth_Quantity_pct := growthPct m.Quantity_Sold_curr m.Quantity_Sold_prev,
      Growth_Value_pct := growthPct m.Sales_Value_curr m.Sales_Value_prev,
      Alert := label_growth (growthPct m.Quantity_Sold_curr m.Quantity_Sold_prev) }

/-! ### Per-(date, product) aggregated history (line 114) -/

/-- One row of `history = combined_df.groupby(["Date", "Product_Name"]).agg(sum)`. -/
structure HistRow where
  date : Date
  product : String
  qty : ℚ
  value : ℚ
deriving DecidableEq, Repr

/-- Duplicate removal keeping the first occurrence (the order `unique()` and
a Python dict use).  Structural so that concrete instances evaluate. -/
def dedupFirst {α : Type} [DecidableEq α] : List α → List α
  | [] => []
  | a :: t => a :: (dedupFirst t).filter (fun b => decide (b ≠ a))

/-- Insertion of one element into a sorted list. -/
def insertLe {α : Type} (le : α → α → Bool) (a : α) : List α → List α
  | [] => [a]
  | b :: t => if le a b then a :: b :: t else b :: insertLe le a t

/-- Insertion sort; models `sorted(...)` / `.sort_values(...)`.  (The sort
keys at every use site below are pairwise distinct, so stability is moot.) -/
def sortByLe {α : Type} (le : α → α → Bool) (l : List α) : List α :=
  l.foldr (insertLe le) []

/-- All observations of the combined frame, each row tagged with its
snapshot date (`pd.concat`, line 39). -/
def observations (dfs : List (Date × List Row)) : List (Date × Row) :=
  (dfs.map fun pr => pr.2.map fun r => (pr.1, r)).flatten

/-- The aggregated row of one (date, product) group: the sums of the
group's quantities and values. -/
def aggRow (obs : List (Date × Row)) (k : Date × String) : HistRow :=
  { date := k.1, product := k.2,
    qty := ((obs.filter fun o => decide (o.1 = k.1 ∧ o.2.product = k.2)).map
      fun o => o.2.qty).sum,
    value := ((obs.filter fun o => decide (o.1 = k.1 ∧ o.2.product = k.2)).map
      fun o => o.2.value).sum }

/-- `combined_df.groupby(["Date", "Product_Name"]).agg({"Quantity_Sold": "sum",
"Sales_Value": "sum"})`: one row per distinct (date, product) key, with the
group sums.  (pandas emits the groups key-sorted; the claims below are
membership- and count-based, so the row order is not modelled.) -/
def historyOf (dfs : List (Date × List Row)) : List HistRow :=
  (dedupFirst ((observations dfs).map fun o => (o.1, o.2.product))).map
    (aggRow (observations dfs))

/-- `sorted(history["Product_Name"].unique())`. -/
def sortedProducts (history : List HistRow) : List String :=
  sortByLe (fun a b => decide (a ≤ b)) (dedupFirst (history.map fun r => r.product))

/-- `history[history["Product_Name"] == prod]` (all-products loop, line 139:
no re-sorting). -/
def hist_prod (history : List HistRow) (p : String) : List HistRow :=
  history.filter fun r => decide (r.product = p)

/-- `history[history["Product_Name"] == selected].sort_values("Date")`
(selected-product path, line 118). -/
def histSel (history : List HistRow) (p : String) : List HistRow :=
  sortByLe (fun a b => decide (toordinal a.date ≤ toordinal b.date))
    (hist_prod history p)

/-- `(ordinal, quantity)` pairs fed to `model.fit`. -/
def qtyPairs (h : List HistRow) : List (ℚ × ℚ) :=
  h.map fun r => ((toordinal r.date : ℚ), r.qty)

/-- `(ordinal, sales value)` pairs fed to the value model. -/
def valPairs (h : List HistRow) : List (ℚ × ℚ) :=
  h.map fun r => ((toordinal r.date : ℚ), r.value)

/-- `hist["Date"].max()` as an ordinal. -/
def maxOrdinal (h : List HistRow) : ℕ :=
  (h.map fun r => toordinal r.date).foldl max 0

/-- `hist["Date"].max()` as a date (used by `+ pd.DateOffset(months=1)`).
Every real date has ordinal ≥ 1, so the fold's seed never wins on a
nonempty history. -/
def maxDateH (h : List HistRow) : Date :=
  h.foldl (fun acc r => if toordinal acc ≤ toordinal r.date then r.date else acc)
    { year := 1, month := 1, day := 1 }

/-! ### Selected-product 30-day forecast (lines 117–122) -/

/-- `pd.date_range(start=max + Timedelta(days=1), periods=30)` as ordinals:
30 consecutive calendar days starting the day after the last observation. -/
def futureOrdinals (m : ℕ) : List ℕ :=
  (List.range 30).map fun k => m + 1 + k

/-- The selected-product forecast: fit on the sorted history, predict on the
30 future ordinals.  No length guard and no clamping of negative values. -/
def selForecast (history : List HistRow) (p : String) : List (ℕ × ℚ) :=
  let h := histSel history p
  (futureOrdinals (maxOrdinal h)).map fun d => (d, predictAt (qtyPairs h) (d : ℚ))

/-! ### All-products forecast summary (lines 135–157) -/

/-- One row of `forecast_summary_df`: the only fields the source builds. -/
structure SummaryRow where
  Product_Name : String
  Forecasted_30d_Quantity : ℤ
  Forecasted_Sales_Value : ℚ
deriving DecidableEq, Repr

/-- The summary row built for one product from its aggregated history `h`:
fit quantity and value models on `h` and predict once at
`h["Date"].max() + pd.DateOffset(months=1)` (lines 141–153). -/
def summaryRowOf (h : List HistRow) (p : String) : SummaryRow :=
  { Product_Name := p,
    Forecasted_30d_Quantity :=
      pyRound (predictAt (qtyPairs h) ((toordinal (addMonths1 (maxDateH h))) : ℚ)),
    Forecasted_Sales_Value :=
      round2 (predictAt (valPairs h) ((toordinal (addMonths1 (maxDateH h))) : ℚ)) }

/-- Lines 137–153: one summary row per product whose aggregated history has
at least two rows; the others are skipped. -/
def all_forecasts (history : List HistRow) : List SummaryRow :=
  (sortedProducts history).filterMap fun p =>
    if 2 ≤ (hist_prod history p).length
    then some (summaryRowOf (hist_prod history p) p)
    else none

/-! ### Whole-run wiring (lines 35–37, 61–63) -/

/-- Everything the claims need of a successful run. -/
structure RunResult where
  comparison : List ComparisonRow
  history : List HistRow
  summary : List SummaryRow

/-- The engine on a validated `dfs` dict: sort the snapshot dates, compare
the last two, aggregate history, and build the all-products summary.  The
fallback arm is unreachable from `run` (guarded by `len(dfs) >= 2`). -/
def engineOf (dfs : List (Date × List Row)) : RunResult :=
  let sorted := sortByLe (fun a b => decide (toordinal a.1 ≤ toordinal b.1)) dfs
  match sorted.reverse with
  | c :: p :: _ =>
    { comparison := comparisonOf c.2 p.2,
      history := historyOf dfs,
      summary := all_forecasts (historyOf dfs) }
  | _ =>
    { comparison := [],
      history := historyOf dfs,
      summary := all_forecasts (historyOf dfs) }

/-- The whole script run on an uploaded archive: ingestion warnings plus
either the at-least-two-sheets error (line 36) or the computed result. -/
def run (entries : List Entry) : List String × Except String RunResult :=
  let ws := (ingest entries).1
  let dfs := (ingest entries).2
  if dfs.length < 2 then
    (ws, Except.error "❗ Upload at least two valid monthly Excel sheets to compare.")
  else
    (ws, Except.ok (engineOf dfs))

/-! ### Statements taken from the spec's words, and concrete inputs -/

/-- The total the spec claims for a summary row (`total_forecast =
round(sum(forecast.quantity))` over the 30-day window following the last
observation).  Written from the spec's words, to be compared with what the
summary loop actually stores. -/
def claimedTotalForecast (h : List HistRow) : ℤ :=
  pyRound (((futureOrdinals (maxOrdinal h)).map fun d =>
    predictAt (qtyPairs h) (d : ℚ)).sum)

/-- A two-month history for product A: 0 units on 2025-05-01, 31 units on
2025-06-01.  The fitted line is `qty = ordinal − toordinal(2025-05-01)`. -/
def histA : List HistRow :=
  [{ date := { year := 2025, month := 5, day := 1 }, product := "A", qty := 0, value := 0 },
   { date := { year := 2025, month := 6, day := 1 }, product := "A", qty := 31, value := 31 }]

/-- A declining two-month history for product D: 31 units on 2025-05-01,
none on 2025-06-01.  The fitted line loses one unit per day, so every
forecast-window prediction is negative. -/
def histD : List HistRow :=
  [{ date := { year := 2025, month := 5, day := 1 }, product := "D", qty := 31, value := 31 },
   { date := { year := 2025, month := 6, day := 1 }, product := "D", qty := 0, value := 0 }]

/-- A concrete upload: two valid monthly sheets; product B appears only in
the June sheet, so its aggregated history has a single row. -/
def twoMonthEntries : List Entry :=
  [{ name := "sales_may_2025.xlsx", cols := requiredCols,
     rows := [{ product := "A", qty := 10, value := 100 }] },
   { name := "sales_june_2025.xlsx", cols := requiredCols,
     rows := [{ product := "A", qty := 20, value := 200 },
              { product := "B", qty := 7, value := 70 }] }]

/-- A concrete archive mixing two invalid sheets (one missing columns, one
with an unparsable filename) with the two valid monthly sheets. -/
def mixedEntries : List Entry :=
  { name := "stats_may_2025.xlsx", cols := ["Product_Name"], rows := [] }
    :: { name := "nodate.xlsx", cols := requiredCols, rows := [] }
    :: twoMonthEntries

/-! ## Theorems -/

/-! ### List-sum helpers -/

/-- Sum of a mapped list, distributed over pointwise subtraction. -/
theorem sum_map_sub {α : Type} (l : List α) (f g : α → ℚ) :
    (l.map fun x => f x - g x).sum = (l.map f).sum - (l.map g).sum := by
  induction l with
  | nil => simp
  | cons a t ih => simp [ih]; ring

/-- A member of a list of nonnegative rationals is at most the sum. -/
theorem single_le_sum_of_mem {α : Type} (l : List α) (f : α → ℚ)
    (h0 : ∀ x ∈ l, 0 ≤ f x) (a : α) (ha : a ∈ l) : f a ≤ (l.map f).sum := by
  induction l with
  | nil => cases ha
  | cons b t ih =>
    rcases List.mem_cons.mp ha with rfl | ha
    · have : 0 ≤ (t.map f).sum := by
        apply List.sum_nonneg
        intro q hq
        obtain ⟨x, hx, rfl⟩ := List.mem_map.mp hq
        exact h0 x (List.mem_cons_of_mem _ hx)
      simpa using this
    · have hb : 0 ≤ f b := h0 b (List.mem_cons_self _ _)
      have := ih (fun x hx => h0 x (List.mem_cons_of_mem _ hx)) ha
      simp only [List.map_cons, List.sum_cons]
      linarith

/-- Sum of a mapped list, distributed over a three-way pointwise sum. -/
theorem sum_map_add3 {α : Type} (l : List α) (f g h : α → ℚ) :
    (l.map fun x => f x + g x + h x).sum
      = (l.map f).sum + (l.map g).sum + (l.map h).sum := by
  induction l with
  | nil => simp
  | cons a t ih => simp [ih]; ring

/-- Sum of a constant over a list. -/
theorem sum_map_const {α : Type} (l : List α) (c : ℚ) :
    (l.map fun _ => c).sum = l.length * c := by
  induction l with
  | nil => simp
  | cons a t ih => simp [ih]; ring

/-! Basic facts about the fit. -/

/-- Two distinct abscissas make the centered square sum positive. -/
theorem sxx_pos (l : List (ℚ × ℚ)) (p q : ℚ × ℚ) (hp : p ∈ l) (hq : q ∈ l)
    (hne : p.1 ≠ q.1) : 0 < sxx l := by
  have hterm : ∀ r : ℚ × ℚ, r ∈ l → 0 ≤ (r.1 - xbar l) ^ 2 := fun r _ => sq_nonneg _
  rcases ne_or_eq p.1 (xbar l) with hpx | hpx
  · have h1 : 0 < (p.1 - xbar l) ^ 2 := by
      have : p.1 - xbar l ≠ 0 := sub_ne_zero.mpr hpx
      positivity
    have h2 := single_le_sum_of_mem l (fun r => (r.1 - xbar l) ^ 2) hterm p hp
    simp only at h2
    unfold sxx
    linarith
  · have hqx : q.1 ≠ xbar l := by rw [← hpx]; exact fun h => hne h.symm
    have h1 : 0 < (q.1 - xbar l) ^ 2 := by
      have : q.1 - xbar l ≠ 0 := sub_ne_zero.mpr hqx
      positivity
    have h2 := single_le_sum_of_mem l (fun r => (r.1 - xbar l) ^ 2) hterm q hq
    simp only at h2
    unfold sxx
    linarith

/-- Deviations of the abscissas from their mean sum to zero. -/
theorem sum_dev_x (l : List (ℚ × ℚ)) (hn : (l.length : ℚ) ≠ 0) :
    (l.map fun p => p.1 - xbar l).sum = 0 := by
  rw [sum_map_sub l Prod.fst (fun _ => xbar l), sum_map_const]
  unfold xbar
  field_simp

/-- Deviations of the ordinates from their mean sum to zero. -/
theorem sum_dev_y (l : List (ℚ × ℚ)) (hn : (l.length : ℚ) ≠ 0) :
    (l.map fun p => p.2 - ybar l).sum = 0 := by
  rw [sum_map_sub l Prod.snd (fun _ => ybar l), sum_map_const]
  unfold ybar
  field_simp

/-- First normal equation: residuals of the fitted line sum to zero. -/
theorem sum_resid (l : List (ℚ × ℚ)) (hn : (l.length : ℚ) ≠ 0) :
    (l.map fun p => p.2 - (fitSlope l * p.1 + fitIntercept l)).sum = 0 := by
  have hcongr : (l.map fun p => p.2 - (fitSlope l * p.1 + fitIntercept l))
      = l.map fun p => (p.2 - ybar l) - fitSlope l * (p.1 - xbar l) := by
    apply List.map_congr_left
    intro p _
    unfold fitIntercept
    ring
  rw [hcongr,
    sum_map_sub l (fun p => p.2 - ybar l) (fun p => fitSlope l * (p.1 - xbar l)),
    List.sum_map_mul_left, sum_dev_x l hn, sum_dev_y l hn]
  ring

/-- Second normal equation: residuals are orthogonal to the abscissas. -/
theorem sum_resid_mul_x (l : List (ℚ × ℚ)) (hn : (l.length : ℚ) ≠ 0)
    (hsxx : sxx l ≠ 0) :
    (l.map fun p => (p.2 - (fitSlope l * p.1 + fitIntercept l)) * p.1).sum = 0 := by
  have hcongr : (l.map fun p => (p.2 - (fitSlope l * p.1 + fitIntercept l)) * p.1)
      = l.map fun p =>
          ((p.1 - xbar l) * (p.2 - ybar l) - fitSlope l * (p.1 - xbar l) ^ 2)
            + xbar l * (p.2 - (fitSlope l * p.1 + fitIntercept l)) := by
    apply List.map_congr_left
    intro p _
    unfold fitIntercept
    ring
  rw [hcongr, List.sum_map_add,
    sum_map_sub l (fun p => (p.1 - xbar l) * (p.2 - ybar l))
      (fun p => fitSlope l * (p.1 - xbar l) ^ 2),
    List.sum_map_mul_left, List.sum_map_mul_left, sum_resid l hn]
  have hfit : fitSlope l * sxx l = sxy l := by
    unfold fitSlope
    field_simp
  show sxy l - fitSlope l * sxx l + xbar l * 0 = 0
  rw [hfit]
  ring

/-- The fitted line minimises the residual sum of squares: for any
competing affine candidate the RSS is at least that of the fit. -/
theorem ols_is_least_squares (l : List (ℚ × ℚ)) (hn : (l.length : ℚ) ≠ 0)
    (hsxx : sxx l ≠ 0) (a c : ℚ) :
    rss l (fitSlope l) (fitIntercept l) ≤ rss l a c := by
  have hcongr : (l.map fun p => (p.2 - (a * p.1 + c)) ^ 2)
      = l.map fun p =>
          (p.2 - (fitSlope l * p.1 + fitIntercept l)) ^ 2
            + 2 * (((fitSlope l - a) * ((p.2 - (fitSlope l * p.1 + fitIntercept l)) * p.1))
                + ((fitIntercept l - c) * (p.2 - (fitSlope l * p.1 + fitIntercept l))))
            + ((fitSlope l - a) * p.1 + (fitIntercept l - c)) ^ 2 := by
    apply List.map_congr_left
    intro p _
    ring
  have hsq : 0 ≤ (l.map fun p =>
      ((fitSlope l - a) * p.1 + (fitIntercept l - c)) ^ 2).sum := by
    apply List.sum_nonneg
    intro q hq
    obtain ⟨x, _, rfl⟩ := List.mem_map.mp hq
    exact sq_nonneg _
  unfold rss
  rw [hcongr, sum_map_add3, List.sum_map_mul_left, List.sum_map_add,
    List.sum_map_mul_left, List.sum_map_mul_left,
    sum_resid l hn, sum_resid_mul_x l hn hsxx]
  simp only [mul_zero, add_zero]
  linarith

/-! ### Structure of the outer merge -/

/-- Every merge row contributed by a current row carries that row's product
name and current-side figures. -/
theorem mem_mergeOne (prev : List Row) (rc : Row) (m : MergedRow)
    (hm : m ∈ mergeOne prev rc) :
    m.Product_Name = rc.product ∧ m.Quantity_Sold_curr = rc.qty
      ∧ m.Sales_Value_curr = rc.value := by
  unfold mergeOne at hm
  by_cases he : (prev.filter fun rp => decide (rp.product = rc.product)).isEmpty
  · simp only [he, if_true] at hm
    rcases List.mem_singleton.mp hm with rfl
    exact ⟨rfl, rfl, rfl⟩
  · simp only [he, if_false] at hm
    obtain ⟨rp, _, rfl⟩ := List.mem_map.mp hm
    exact ⟨rfl, rfl, rfl⟩

/-- Every merge row on the right side comes from a previous-only row (its
product matches no current row) and has zeros filled on the current side. -/
theorem mem_mergeRight (cur prev : List Row) (m : MergedRow)
    (hm : m ∈ mergeRight cur prev) :
    ∃ rp ∈ prev, (∀ rc ∈ cur, rc.product ≠ rp.product)
      ∧ m = { Product_Name := rp.product, Quantity_Sold_curr := 0,
              Sales_Value_curr := 0, Quantity_Sold_prev := rp.qty,
              Sales_Value_prev := rp.value } := by
  unfold mergeRight at hm
  obtain ⟨rp, hrp, rfl⟩ := List.mem_map.mp hm
  have h := List.mem_filter.mp hrp
  refine ⟨rp, h.1, ?_, rfl⟩
  intro rc hrc
  have h2 := h.2
  simp only [Bool.not_eq_true', List.any_eq_false, decide_eq_false_iff_not] at h2
  simpa using h2 rc hrc

/-- A merged row whose product appears in no current row comes from the
right side of the merge. -/
theorem mem_outerMerge_right (cur prev : List Row) (m : MergedRow)
    (hm : m ∈ outerMerge cur prev)
    (hnot : m.Product_Name ∉ cur.map (fun x => x.product)) :
    m ∈ mergeRight cur prev := by
  rcases List.mem_append.mp hm with hl | hr
  · exfalso
    obtain ⟨l, hl1, hl2⟩ := List.mem_flatten.mp hl
    obtain ⟨rc, hrc, rfl⟩ := List.mem_map.mp hl1
    have := (mem_mergeOne prev rc m hl2).1
    exact hnot (this ▸ List.mem_map.mpr ⟨rc, hrc, rfl⟩)
  · exact hr

/-! ### Claim C6: alert thresholds -/

/-- C6: for every numeric growth percentage g the alert label is Spike when
g > 10, Drop when g < -10, and Stable otherwise; in particular g = 10 and
g = -10 both yield Stable. -/
theorem c6_alert_thresholds :
    (∀ g : ℚ,
      (10 < g → label_growth (some g) = "📈 Spike")
        ∧ (g < -10 → label_growth (some g) = "📉 Drop")
        ∧ (-10 ≤ g → g ≤ 10 → label_growth (some g) = "✅ Stable"))
      ∧ label_growth (some 10) = "✅ Stable"
      ∧ label_growth (some (-10)) = "✅ Stable" := by
  refine ⟨fun g => ⟨?_, ?_, ?_⟩, ?_, ?_⟩
  · intro h
    simp [label_growth, if_pos h]
  · intro h
    have h1 : ¬ 10 < g := by linarith
    simp [label_growth, h1, if_pos h]
  · intro h1 h2
    have h3 : ¬ 10 < g := by linarith
    have h4 : ¬ g < -10 := by linarith
    simp [label_growth, h3, h4]
  · norm_num [label_growth]
  · norm_num [label_growth]

/-- C6 witness: the theorem applied at 20, −20 and 10. -/
theorem c6_alert_thresholds_witness :
    label_growth (some 20) = "📈 Spike" ∧ label_growth (some (-20)) = "📉 Drop"
      ∧ label_growth (some 10) = "✅ Stable" :=
  ⟨(c6_alert_thresholds.1 20).1 (by norm_num),
   (c6_alert_thresholds.1 (-20)).2.1 (by norm_num),
   c6_alert_thresholds.2.1⟩

/-! ### Claim C2: zero prior-period quantity -/

/-- C2 counterexample: on a snapshot pair where product N is new (prior
quantity filled with 0), the growth percentage is indeed NaN (`none`), but
the Alert column still asserts a label — the row is labelled "✅ Stable",
because NaN fails both threshold comparisons and the else branch fires.
This refutes the claim's "no alert label is asserted for that row". -/
theorem c2_counterexample :
    comparisonOf [{ product := "N", qty := 5, value := 5 }] []
      = [{ Product_Name := "N", Quantity_Sold_curr := 5, Sales_Value_curr := 5,
           Quantity_Sold_prev := 0, Sales_Value_prev := 0,
           Growth_Quantity_pct := none, Growth_Value_pct := none,
           Alert := "✅ Stable" }] := by
  simp [comparisonOf, outerMerge, mergeOne, mergeRight, growthPct, label_growth]

/-- C2 as amended: for every comparison row whose prior-period quantity is
zero, the quantity growth percentage is undefined (`none`, the NaN of the
source, not a crash and not a propagated error) and the alert label of that
row is "✅ Stable" (the label IS asserted: NaN compares false against both
thresholds, so the final else branch applies). -/
theorem c2_zero_prior_growth (cur prev : List Row) (r : ComparisonRow)
    (hr : r ∈ comparisonOf cur prev) (h0 : r.Quantity_Sold_prev = 0) :
    r.Growth_Quantity_pct = none ∧ r.Alert = "✅ Stable" := by
  obtain ⟨m, _, rfl⟩ := List.mem_map.mp hr
  simp only at h0
  simp [growthPct, h0, label_growth]

/-- C2 witness: the amended theorem applied to the concrete new-product
row. -/
theorem c2_zero_prior_growth_witness :
    ({ Product_Name := "N", Quantity_Sold_curr := 5, Sales_Value_curr := 5,
       Quantity_Sold_prev := 0, Sales_Value_prev := 0,
       Growth_Quantity_pct := none, Growth_Value_pct := none,
       Alert := "✅ Stable" } : ComparisonRow).Growth_Quantity_pct = none
      ∧ ({ Product_Name := "N", Quantity_Sold_curr := 5, Sales_Value_curr := 5,
           Quantity_Sold_prev := 0, Sales_Value_prev := 0,
           Growth_Quantity_pct := none, Growth_Value_pct := none,
           Alert := "✅ Stable" } : ComparisonRow).Alert = "✅ Stable" :=
  c2_zero_prior_growth [{ product := "N", qty := 5, value := 5 }] [] _
    (by simp [comparisonOf, outerMerge, mergeOne, mergeRight, growthPct, label_growth])
    (by norm_num)

/-! ### Claim C7: discontinued products show −100% -/

/-- C7: every comparison row for a product present only in the previous
snapshot (current side filled with 0) with nonzero previous quantity has
quantity growth exactly −100. -/
theorem c7_discontinued_minus_100 (cur prev : List Row) (r : ComparisonRow)
    (hr : r ∈ comparisonOf cur prev)
    (hnot : r.Product_Name ∉ cur.map (fun x => x.product))
    (hq : r.Quantity_Sold_prev ≠ 0) :
    r.Quantity_Sold_curr = 0 ∧ r.Growth_Quantity_pct = some (-100) := by
  obtain ⟨m, hm, rfl⟩ := List.mem_map.mp hr
  simp only at hnot hq
  have hright := mem_outerMerge_right cur prev m hm hnot
  obtain ⟨rp, _, _, rfl⟩ := mem_mergeRight cur prev m hright
  simp only at hq ⊢
  refine ⟨trivial, ?_⟩
  unfold growthPct
  rw [if_neg hq]
  congr 1
  field_simp

/-- C7 witness: product P sold 4 units previously and is absent from the
current snapshot. -/
theorem c7_discontinued_minus_100_witness :
    ({ Product_Name := "P", Quantity_Sold_curr := 0, Sales_Value_curr := 0,
       Quantity_Sold_prev := 4, Sales_Value_prev := 40,
       Growth_Quantity_pct := growthPct 0 4, Growth_Value_pct := growthPct 0 40,
       Alert := label_growth (growthPct 0 4) } : ComparisonRow).Quantity_Sold_curr = 0
    ∧ ({ Product_Name := "P", Quantity_Sold_curr := 0, Sales_Value_curr := 0,
         Quantity_Sold_prev := 4, Sales_Value_prev := 40,
         Growth_Quantity_pct := growthPct 0 4, Growth_Value_pct := growthPct 0 40,
         Alert := label_growth (growthPct 0 4) } : ComparisonRow).Growth_Quantity_pct
        = some (-100) :=
  c7_discontinued_minus_100 [] [{ product := "P", qty := 4, value := 40 }] _
    (by simp [comparisonOf, outerMerge, mergeOne, mergeRight])
    (by simp)
    (by norm_num)

/-! ### Claim C4: the library fit is the closed-form OLS solution -/

/-- C4: on a series with at least two distinct ordinals, the fitted pair
equals the spec's closed form (slope = covariance/variance, intercept =
mean y − slope·mean x), and it minimises the residual sum of squares —
the defining property of the library's least-squares call.  Determinism is
immediate: the fit is a pure function of the input list. -/
theorem c4_fit_is_closed_form_ols (l : List (ℚ × ℚ))
    (h2 : ∃ p ∈ l, ∃ q ∈ l, p.1 ≠ q.1) :
    fitSlope l = specSlope l ∧ fitIntercept l = specIntercept l
      ∧ ∀ a b : ℚ, rss l (fitSlope l) (fitIntercept l) ≤ rss l a b := by
  obtain ⟨p, hp, q, hq, hne⟩ := h2
  have hsxx : sxx l ≠ 0 := ne_of_gt (sxx_pos l p q hp hq hne)
  have hl : l ≠ [] := by rintro rfl; cases hp
  have hn : (l.length : ℚ) ≠ 0 := by
    exact_mod_cast Nat.cast_ne_zero.mpr (List.length_pos.mpr hl).ne'
  have hslope : fitSlope l = specSlope l := by
    unfold fitSlope specSlope specCovariance specVariance
    rw [div_div_div_comm, div_self hn, div_one]
  refine ⟨hslope, ?_, ols_is_least_squares l hn hsxx⟩
  unfold fitIntercept specIntercept
  rw [hslope]

/-- C4 witness: the theorem applied to the two-point series (0,0), (1,1). -/
theorem c4_fit_is_closed_form_ols_witness :
    fitSlope [((0:ℚ), (0:ℚ)), (1, 1)] = specSlope [((0:ℚ), (0:ℚ)), (1, 1)]
      ∧ fitIntercept [((0:ℚ), (0:ℚ)), (1, 1)] = specIntercept [((0:ℚ), (0:ℚ)), (1, 1)]
      ∧ ∀ a b : ℚ,
          rss [((0:ℚ), (0:ℚ)), (1, 1)]
              (fitSlope [((0:ℚ), (0:ℚ)), (1, 1)]) (fitIntercept [((0:ℚ), (0:ℚ)), (1, 1)])
            ≤ rss [((0:ℚ), (0:ℚ)), (1, 1)] a b :=
  c4_fit_is_closed_form_ols [((0:ℚ), (0:ℚ)), (1, 1)]
    ⟨(0, 0), by simp, (1, 1), by simp, by norm_num⟩

/-! ### Claim C3: the forecast window and unclamped predictions -/

/-- C3: for every history and selected product, the forecast dates are
exactly the 30 consecutive ordinals starting the day after the last
observed date (no gaps, no weekend skipping), each prediction is
slope·ordinal + intercept, and — no clamping — on the declining series
`histD` a prediction is negative. -/
theorem c3_forecast_window :
    (∀ (history : List HistRow) (p : String),
      (selForecast history p).map Prod.fst
          = List.range' (maxOrdinal (histSel history p) + 1) 30
        ∧ ∀ pr ∈ selForecast history p,
            pr.2 = fitSlope (qtyPairs (histSel history p)) * (pr.1 : ℚ)
                     + fitIntercept (qtyPairs (histSel history p)))
      ∧ ∃ pr ∈ selForecast histD "D", pr.2 < 0 := by
  constructor
  · intro history p
    constructor
    · unfold selForecast futureOrdinals
      rw [List.map_map, List.range'_eq_map_range]
      simp
    · intro pr hpr
      unfold selForecast futureOrdinals at hpr
      obtain ⟨d, _, rfl⟩ := List.mem_map.mp hpr
      rfl
  · have hsel : histSel histD "D" = histD := by decide
    have hq : qtyPairs histD = [((739372 : ℚ), 31), ((739403 : ℚ), 0)] := by decide
    have hmax : maxOrdinal histD = 739403 := by decide
    refine ⟨(739404, predictAt (qtyPairs (histSel histD "D")) ((739404 : ℕ) : ℚ)), ?_, ?_⟩
    · unfold selForecast futureOrdinals
      refine List.mem_map.mpr ⟨739404, ?_, by rw [hsel]⟩
      rw [hsel, hmax]
      exact List.mem_map.mpr ⟨0, by simp, by norm_num⟩
    · rw [hsel, hq]
      norm_num [predictAt, fitSlope, fitIntercept, sxy, sxx, xbar, ybar]

/-- C3 witness: on `histA` the forecast dates are the 30 days after
2025-06-01, and the first forecast pair satisfies the fitted-line
formula. -/
theorem c3_forecast_window_witness :
    (selForecast histA "A").map Prod.fst = List.range' 739404 30
      ∧ ∃ pr ∈ selForecast histA "A",
          pr.2 = fitSlope (qtyPairs (histSel histA "A")) * (pr.1 : ℚ)
                   + fitIntercept (qtyPairs (histSel histA "A")) := by
  have h := c3_forecast_window.1 histA "A"
  have hmax : maxOrdinal (histSel histA "A") + 1 = 739404 := by decide
  refine ⟨by rw [h.1, hmax], ?_⟩
  have hne : (selForecast histA "A") ≠ [] := by
    intro hempty
    have := h.1
    rw [hempty] at this
    simp [List.range'] at this
  obtain ⟨pr, hpr⟩ := List.exists_mem_of_ne_nil _ hne
  exact ⟨pr, hpr, h.2 pr hpr⟩

/-! ### Claim C5: outer-join completeness -/

/-- The previous-side figures of a left merge row: zero-filled, or taken
from a matching previous row. -/
theorem mem_mergeOne_prev (prev : List Row) (rc : Row) (m : MergedRow)
    (hm : m ∈ mergeOne prev rc) :
    (m.Quantity_Sold_prev = 0 ∧ m.Sales_Value_prev = 0)
      ∨ ∃ rp ∈ prev, rp.product = rc.product
          ∧ m.Quantity_Sold_prev = rp.qty ∧ m.Sales_Value_prev = rp.value := by
  unfold mergeOne at hm
  by_cases he : (prev.filter fun rp => decide (rp.product = rc.product)).isEmpty
  · left
    simp only [he, if_true] at hm
    rcases List.mem_singleton.mp hm with rfl
    exact ⟨rfl, rfl⟩
  · right
    simp only [he, if_false] at hm
    obtain ⟨rp, hrp, rfl⟩ := List.mem_map.mp hm
    have h := List.mem_filter.mp hrp
    exact ⟨rp, h.1, by simpa using h.2, rfl, rfl⟩

/-- Filtering on the product equals counting that product name. -/
theorem length_filter_product (l : List Row) (x : String) :
    (l.filter fun r => decide (r.product = x)).length
      = (l.map fun r => r.product).count x := by
  induction l with
  | nil => simp
  | cons r t ih =>
    by_cases h : r.product = x
    · simp [List.filter_cons, h, List.count_cons, ih]
    · simp [List.filter_cons, h, List.count_cons, Ne.symm h, ih]

/-- Counting in a constant-valued map. -/
theorem count_map_const {α : Type} (l : List α) (c p : String) :
    (l.map fun _ => c).count p = if c = p then l.length else 0 := by
  induction l with
  | nil => simp
  | cons a t ih =>
    simp only [List.map_cons, List.count_cons, ih, List.length_cons]
    by_cases h : c = p
    · simp [h]
    · simp [h, Ne.symm h]

/-- With unique previous-side keys, one current row contributes exactly one
merge row, carrying its own product name. -/
theorem count_names_mergeOne (prev : List Row) (rc : Row) (p : String)
    (hp : (prev.map fun r => r.product).Nodup) :
    ((mergeOne prev rc).map fun m => m.Product_Name).count p
      = if rc.product = p then 1 else 0 := by
  unfold mergeOne
  by_cases he : (prev.filter fun rp => decide (rp.product = rc.product)).isEmpty = true
  · rw [if_pos he]
    simp only [List.map_cons, List.map_nil]
    exact List.count_singleton' p rc.product
  · have hne : (prev.filter fun rp => decide (rp.product = rc.product)) ≠ [] := by
      simpa [List.isEmpty_iff] using he
    have hlen : (prev.filter fun rp => decide (rp.product = rc.product)).length = 1 := by
      have h1 := length_filter_product prev rc.product
      have hle := List.nodup_iff_count_le_one.mp hp rc.product
      have hpos : 0 < (prev.filter fun rp => decide (rp.product = rc.product)).length :=
        List.length_pos.mpr hne
      omega
    rw [if_neg he, List.map_map]
    have hcmp : ((fun m : MergedRow => m.Product_Name) ∘ fun rp : Row =>
        ({ Product_Name := rc.product, Quantity_Sold_curr := rc.qty,
           Sales_Value_curr := rc.value, Quantity_Sold_prev := rp.qty,
           Sales_Value_prev := rp.value } : MergedRow)) = fun _ : Row => rc.product := rfl
    rw [hcmp, count_map_const, hlen]

/-- Left-side key counts equal the current snapshot's key counts. -/
theorem count_left_names (cur prev : List Row) (p : String)
    (hp : (prev.map fun r => r.product).Nodup) :
    (((cur.map (mergeOne prev)).flatten).map fun m => m.Product_Name).count p
      = (cur.map fun r => r.product).count p := by
  induction cur with
  | nil => simp
  | cons rc t ih =>
    simp only [List.map_cons, List.flatten_cons, List.map_append, List.count_append, ih,
      List.count_cons]
    rw [count_names_mergeOne prev rc p hp]
    by_cases h : rc.product = p
    · simp only [if_pos h, h, beq_self_eq_true, if_true]
      omega
    · simp [h, Ne.symm h]

/-- A key of the current snapshot never appears on the right side. -/
theorem count_right_zero (cur prev : List Row) (p : String)
    (hmem : p ∈ cur.map fun r => r.product) :
    ((mergeRight cur prev).map fun m => m.Product_Name).count p = 0 := by
  rw [List.count_eq_zero]
  intro hcontra
  obtain ⟨m, hm, hname⟩ := List.mem_map.mp hcontra
  obtain ⟨rp, _, hdisj, rfl⟩ := mem_mergeRight cur prev m hm
  obtain ⟨rc, hrc, hrcp⟩ := List.mem_map.mp hmem
  exact hdisj rc hrc (hrcp.trans hname.symm)

/-- For a key absent from the current snapshot, the right side counts it as
often as the previous snapshot does. -/
theorem count_right_keep (cur prev : List Row) (p : String)
    (hnot : p ∉ cur.map fun r => r.product) :
    ((mergeRight cur prev).map fun m => m.Product_Name).count p
      = (prev.map fun r => r.product).count p := by
  induction prev with
  | nil => simp [mergeRight]
  | cons rp t ih =>
    unfold mergeRight at ih ⊢
    by_cases hk : (cur.any fun rc => decide (rc.product = rp.product)) = true
    · have hne : p ≠ rp.product := by
        obtain ⟨rc, hrc, hrcp⟩ := List.any_eq_true.mp hk
        have hrc2 : rc.product = rp.product := of_decide_eq_true hrcp
        intro hpe
        exact hnot (List.mem_map.mpr ⟨rc, hrc, hrc2.trans hpe.symm⟩)
      simp only [List.filter_cons, hk, Bool.not_true]
      rw [if_neg (by simp)]
      rw [ih]
      simp [List.count_cons, hne]
    · have hk2 : (cur.any fun rc => decide (rc.product = rp.product)) = false :=
        Bool.eq_false_iff.mpr hk
      simp only [List.filter_cons, hk2, Bool.not_false]
      rw [if_pos trivial]
      simp only [List.map_cons, List.count_cons]
      rw [ih]

/-- C5 as amended: when each snapshot has unique product keys (one row per
product, as in an already-aggregated monthly table), every key present in
either snapshot appears exactly once in the merged output, and every
numeric field missing from one side is filled with 0.  Without the
uniqueness assumption the claim is false — see the counterexample. -/
theorem c5_outer_join_unique (cur prev : List Row)
    (hc : (cur.map fun r => r.product).Nodup)
    (hp : (prev.map fun r => r.product).Nodup) :
    (∀ p : String,
        p ∈ cur.map (fun r => r.product) ∨ p ∈ prev.map (fun r => r.product) →
        ((outerMerge cur prev).map fun m => m.Product_Name).count p = 1)
      ∧ ∀ m ∈ outerMerge cur prev,
          (m.Product_Name ∉ prev.map (fun r => r.product) →
            m.Quantity_Sold_prev = 0 ∧ m.Sales_Value_prev = 0)
          ∧ (m.Product_Name ∉ cur.map (fun r => r.product) →
            m.Quantity_Sold_curr = 0 ∧ m.Sales_Value_curr = 0) := by
  constructor
  · intro p hmem
    unfold outerMerge
    rw [List.map_append, List.count_append, count_left_names cur prev p hp]
    rcases Classical.em (p ∈ cur.map fun r => r.product) with hin | hout
    · rw [count_right_zero cur prev p hin, List.count_eq_one_of_mem hc hin]
    · have hinp : p ∈ prev.map fun r => r.product := hmem.resolve_left hout
      rw [count_right_keep cur prev p hout, List.count_eq_zero.mpr hout,
        List.count_eq_one_of_mem hp hinp]
  · intro m hm
    rcases List.mem_append.mp hm with hl | hr
    · obtain ⟨l, hl1, hl2⟩ := List.mem_flatten.mp hl
      obtain ⟨rc, hrc, rfl⟩ := List.mem_map.mp hl1
      have hname := (mem_mergeOne prev rc m hl2).1
      constructor
      · intro hnp
        rcases mem_mergeOne_prev prev rc m hl2 with h0 | ⟨rp, hrp, heq, hq, hv⟩
        · exact h0
        · exact absurd (List.mem_map.mpr ⟨rp, hrp, heq.trans hname.symm⟩) hnp
      · intro hnc
        exact absurd (List.mem_map.mpr ⟨rc, hrc, hname.symm⟩) hnc
    · obtain ⟨rp, hrp, hdisj, rfl⟩ := mem_mergeRight cur prev m hr
      constructor
      · intro hnp
        exact absurd (List.mem_map.mpr ⟨rp, hrp, rfl⟩) hnp
      · intro _
        exact ⟨rfl, rfl⟩

/-- C5 counterexample: the source merges the two raw monthly sheets without
aggregating them, so a sheet holding two rows for product A makes A appear
twice in the comparison output — "appears exactly once" fails as stated. -/
theorem c5_counterexample :
    ((outerMerge
        [{ product := "A", qty := 1, value := 1 },
         { product := "A", qty := 2, value := 2 }]
        [{ product := "A", qty := 5, value := 5 }]).map
      fun m => m.Product_Name).count "A" = 2 := by
  decide

/-- C5 witness: the amended theorem applied to two one-row snapshots. -/
theorem c5_outer_join_unique_witness :
    ((outerMerge [{ product := "A", qty := 1, value := 1 }]
        [{ product := "B", qty := 2, value := 2 }]).map
      fun m => m.Product_Name).count "A" = 1
      ∧ ((outerMerge [{ product := "A", qty := 1, value := 1 }]
          [{ product := "B", qty := 2, value := 2 }]).map
        fun m => m.Product_Name).count "B" = 1 :=
  ⟨(c5_outer_join_unique _ _ (by simp) (by simp)).1 "A" (Or.inl (by simp)),
   (c5_outer_join_unique _ _ (by simp) (by simp)).1 "B" (Or.inr (by simp))⟩

/-! ### Claim C8: degenerate groups are excluded from the summary -/

/-- `dedupFirst` preserves membership. -/
theorem mem_dedupFirst {α : Type} [DecidableEq α] (l : List α) (a : α) :
    a ∈ dedupFirst l ↔ a ∈ l := by
  induction l with
  | nil => simp [dedupFirst]
  | cons b t ih =>
    by_cases hab : a = b
    · subst hab
      simp [dedupFirst]
    · simp [dedupFirst, List.mem_filter, hab, ih]

/-- `dedupFirst` has no duplicates. -/
theorem nodup_dedupFirst {α : Type} [DecidableEq α] (l : List α) :
    (dedupFirst l).Nodup := by
  induction l with
  | nil => simp [dedupFirst]
  | cons b t ih =>
    refine List.Nodup.cons ?_ (List.Nodup.filter _ ih)
    intro hmem
    have h := (List.mem_filter.mp hmem).2
    simp at h

/-- Insertion preserves membership. -/
theorem mem_insertLe {α : Type} (le : α → α → Bool) (a x : α) (l : List α) :
    x ∈ insertLe le a l ↔ x = a ∨ x ∈ l := by
  induction l with
  | nil => simp [insertLe]
  | cons b t ih =>
    unfold insertLe
    by_cases h : le a b = true
    · simp [h]
    · simp [h, ih]
      tauto

/-- Sorting preserves membership. -/
theorem mem_sortByLe {α : Type} (le : α → α → Bool) (l : List α) (x : α) :
    x ∈ sortByLe le l ↔ x ∈ l := by
  induction l with
  | nil => simp [sortByLe]
  | cons b t ih =>
    unfold sortByLe at ih ⊢
    simp [mem_insertLe, ih]

/-- The sorted unique product list holds exactly the history's products. -/
theorem mem_sortedProducts (history : List HistRow) (p : String) :
    p ∈ sortedProducts history ↔ p ∈ history.map fun r => r.product := by
  unfold sortedProducts
  rw [mem_sortByLe, mem_dedupFirst]

/-- A product appears in the all-products summary exactly when it is a
history product with at least two aggregated rows. -/
theorem mem_all_forecasts (history : List HistRow) (p : String) :
    (p ∈ (all_forecasts history).map fun s => s.Product_Name)
      ↔ p ∈ history.map (fun r => r.product)
          ∧ 2 ≤ (hist_prod history p).length := by
  unfold all_forecasts
  constructor
  · intro h
    obtain ⟨s, hs, hname⟩ := List.mem_map.mp h
    obtain ⟨q, hq, hfq⟩ := List.mem_filterMap.mp hs
    by_cases hlen : 2 ≤ (hist_prod history q).length
    · rw [if_pos hlen] at hfq
      have hsq : s = summaryRowOf (hist_prod history q) q := (Option.some_inj.mp hfq).symm
      have hpq : p = q := by rw [← hname, hsq]; rfl
      subst hpq
      exact ⟨(mem_sortedProducts _ _).mp hq, hlen⟩
    · rw [if_neg hlen] at hfq
      cases hfq
  · rintro ⟨hmem, hlen⟩
    refine List.mem_map.mpr ⟨summaryRowOf (hist_prod history p) p, ?_, rfl⟩
    refine List.mem_filterMap.mpr ⟨p, (mem_sortedProducts _ _).mpr hmem, ?_⟩
    rw [if_pos hlen]

/-- The aggregated rows of one product are the aggregation of its distinct
(date, product) keys. -/
theorem hist_prod_historyOf (dfs : List (Date × List Row)) (p : String) :
    hist_prod (historyOf dfs) p
      = ((dedupFirst ((observations dfs).map fun o => (o.1, o.2.product))).filter
          fun k => decide (k.2 = p)).map (aggRow (observations dfs)) := by
  unfold hist_prod historyOf
  rw [List.filter_map]
  rfl

/-- C8: a product gets a summary row iff its per-(date, product) aggregated
history has at least two rows (the `len(hist_prod) >= 2` guard; skipping,
not faulting, is built into `filterMap`); those history rows have pairwise
distinct dates, and their dates are exactly the distinct dates on which the
product was observed — so "fewer than 2 distinct dates" is exactly what is
excluded. -/
theorem c8_degenerate_groups_excluded (dfs : List (Date × List Row)) (p : String) :
    ((p ∈ (all_forecasts (historyOf dfs)).map fun s => s.Product_Name)
        ↔ p ∈ (historyOf dfs).map (fun r => r.product)
            ∧ 2 ≤ (hist_prod (historyOf dfs) p).length)
      ∧ ((hist_prod (historyOf dfs) p).map fun r => r.date).Nodup
      ∧ ∀ d : Date,
          (d ∈ (hist_prod (historyOf dfs) p).map fun r => r.date)
            ↔ ∃ o ∈ observations dfs, o.1 = d ∧ o.2.product = p := by
  refine ⟨mem_all_forecasts _ p, ?_, ?_⟩
  · rw [hist_prod_historyOf, List.map_map]
    refine List.Nodup.map_on ?_ (List.Nodup.filter _ (nodup_dedupFirst _))
    intro x hx y hy hxy
    have hx2 : x.2 = p := of_decide_eq_true (List.mem_filter.mp hx).2
    have hy2 : y.2 = p := of_decide_eq_true (List.mem_filter.mp hy).2
    exact Prod.ext hxy (hx2.trans hy2.symm)
  · intro d
    rw [hist_prod_historyOf, List.map_map]
    constructor
    · intro hd
      obtain ⟨k, hk, hkd⟩ := List.mem_map.mp hd
      have hk1 := (List.mem_filter.mp hk).1
      have hk2 : k.2 = p := of_decide_eq_true (List.mem_filter.mp hk).2
      have := (mem_dedupFirst _ _).mp hk1
      obtain ⟨o, ho, hok⟩ := List.mem_map.mp this
      refine ⟨o, ho, ?_, ?_⟩
      · have : o.1 = k.1 := congrArg Prod.fst hok
        exact this.trans hkd
      · have : o.2.product = k.2 := congrArg Prod.snd hok
        exact this.trans hk2
    · rintro ⟨o, ho, hod, hop⟩
      refine List.mem_map.mpr ⟨(d, p), ?_, rfl⟩
      refine List.mem_filter.mpr ⟨?_, by simp⟩
      refine (mem_dedupFirst _ _).mpr ?_
      exact List.mem_map.mpr ⟨o, ho, by rw [hod, hop]⟩

/-! ### Claim C9: ingestion warnings and the two-snapshot gate -/

/-- Warnings already issued survive the rest of the ingestion loop. -/
theorem ingest_warn_mono (es : List Entry) (acc : List String × List (Date × List Row))
    (w : String) (hw : w ∈ acc.1) : w ∈ (es.foldl ingestStep acc).1 := by
  induction es generalizing acc with
  | nil => simpa using hw
  | cons e t ih =>
    rw [List.foldl_cons]
    apply ih
    unfold ingestStep
    by_cases h1 : endsWithXlsx e.name.data = true
    · rw [if_pos h1]
      by_cases h2 : requiredCols.all (fun c => c ∈ e.cols) = true
      · rw [if_pos h2]
        cases hp : parseEntryDate e.name with
        | some d => exact hw
        | none => exact List.mem_append_left _ hw
      · rw [if_neg h2]
        exact List.mem_append_left _ hw
    · rw [if_neg h1]
      exact hw

/-- An invalid `.xlsx` entry leaves its warning in the loop's output. -/
theorem ingest_warn_of_mem (es : List Entry) (acc : List String × List (Date × List Row))
    (e : Entry) (he : e ∈ es) (hx : endsWithXlsx e.name.data = true) :
    (¬ requiredCols.all (fun c => c ∈ e.cols) = true →
        ("❌ Skipping file " ++ e.name ++ " — missing required columns.")
          ∈ (es.foldl ingestStep acc).1)
      ∧ (requiredCols.all (fun c => c ∈ e.cols) = true → parseEntryDate e.name = none →
        ("⚠️ Could not parse date from file: " ++ e.name)
          ∈ (es.foldl ingestStep acc).1) := by
  induction es generalizing acc with
  | nil => cases he
  | cons e0 t ih =>
    rcases List.mem_cons.mp he with rfl | he
    · constructor
      · intro hcols
        rw [List.foldl_cons]
        apply ingest_warn_mono
        unfold ingestStep
        rw [if_pos hx, if_neg hcols]
        exact List.mem_append_right _ (List.mem_singleton.mpr rfl)
      · intro hcols hparse
        rw [List.foldl_cons]
        apply ingest_warn_mono
        unfold ingestStep
        rw [if_pos hx, if_pos hcols, hparse]
        exact List.mem_append_right _ (List.mem_singleton.mpr rfl)
    · rw [List.foldl_cons]
      exact ih (ingestStep acc e0) he

/-- Membership after a dict insertion. -/
theorem mem_dictInsert (d : Date) (rows : List Row) (dfs : List (Date × List Row))
    (x : Date × List Row) (hx : x ∈ dictInsert d rows dfs) :
    x ∈ dfs ∨ x = (d, rows) := by
  unfold dictInsert at hx
  by_cases h : (dfs.any fun pr => decide (pr.1 = d)) = true
  · rw [if_pos h] at hx
    obtain ⟨pr, hpr, heq⟩ := List.mem_map.mp hx
    by_cases hd : pr.1 = d
    · rw [if_pos hd] at heq
      exact Or.inr heq.symm
    · rw [if_neg hd] at heq
      exact Or.inl (heq ▸ hpr)
  · rw [if_neg h] at hx
    rcases List.mem_append.mp hx with h1 | h1
    · exact Or.inl h1
    · exact Or.inr (List.mem_singleton.mp h1)

/-- Every snapshot in the dict was contributed by a valid entry: right
suffix, required columns present, parsable month/year filename. -/
theorem ingest_dfs_from (es : List Entry) (acc : List String × List (Date × List Row))
    (x : Date × List Row) (hx : x ∈ (es.foldl ingestStep acc).2) :
    x ∈ acc.2 ∨ ∃ e ∈ es, endsWithXlsx e.name.data = true
      ∧ requiredCols.all (fun c => c ∈ e.cols) = true
      ∧ parseEntryDate e.name = some x.1 ∧ x.2 = e.rows := by
  induction es generalizing acc with
  | nil => exact Or.inl (by simpa using hx)
  | cons e0 t ih =>
    rw [List.foldl_cons] at hx
    rcases ih (ingestStep acc e0) hx with hacc | ⟨e, he, h1, h2, h3, h4⟩
    · unfold ingestStep at hacc
      by_cases hends : endsWithXlsx e0.name.data = true
      · rw [if_pos hends] at hacc
        by_cases hcols : requiredCols.all (fun c => c ∈ e0.cols) = true
        · rw [if_pos hcols] at hacc
          cases hp : parseEntryDate e0.name with
          | some d =>
            rw [hp] at hacc
            rcases mem_dictInsert d e0.rows acc.2 x hacc with hin | rfl
            · exact Or.inl hin
            · exact Or.inr ⟨e0, List.mem_cons_self _ _, hends, hcols, hp, rfl⟩
          | none =>
            rw [hp] at hacc
            exact Or.inl hacc
        · rw [if_neg hcols] at hacc
          exact Or.inl hacc
      · rw [if_neg hends] at hacc
        exact Or.inl hacc
    · exact Or.inr ⟨e, List.mem_cons_of_mem _ he, h1, h2, h3, h4⟩

/-- C9: an entry missing a required column, or whose filename has no
parsable month/year token, is skipped with a visible warning (the run does
not abort); every snapshot handed to the engine comes from a valid entry;
and the engine runs only when at least two valid monthly snapshots remain —
with fewer, the run stops with the error message and computes nothing. -/
theorem c9_ingestion_errors (entries : List Entry) :
    (∀ e ∈ entries, endsWithXlsx e.name.data = true →
      (¬ requiredCols.all (fun c => c ∈ e.cols) = true →
          ("❌ Skipping file " ++ e.name ++ " — missing required columns.")
            ∈ (ingest entries).1)
        ∧ (requiredCols.all (fun c => c ∈ e.cols) = true →
           parseEntryDate e.name = none →
          ("⚠️ Could not parse date from file: " ++ e.name) ∈ (ingest entries).1))
      ∧ (∀ x ∈ (ingest entries).2, ∃ e ∈ entries,
          endsWithXlsx e.name.data = true
            ∧ requiredCols.all (fun c => c ∈ e.cols) = true
            ∧ parseEntryDate e.name = some x.1 ∧ x.2 = e.rows)
      ∧ ((ingest entries).2.length < 2 →
          (run entries).2
            = Except.error "❗ Upload at least two valid monthly Excel sheets to compare.")
      ∧ (2 ≤ (ingest entries).2.length →
          (run entries).2 = Except.ok (engineOf (ingest entries).2)) := by
  refine ⟨?_, ?_, ?_, ?_⟩
  · intro e he hx
    exact ingest_warn_of_mem entries ([], []) e he hx
  · intro x hx
    rcases ingest_dfs_from entries ([], []) x hx with h | h
    · simp at h
    · exact h
  · intro h
    unfold run
    rw [if_pos h]
  · intro h
    have h2 : ¬ (ingest entries).2.length < 2 := by omega
    unfold run
    rw [if_neg h2]

/-- C9 witness: on the concrete mixed archive, both warnings are issued and
the run still reaches the engine on the two valid snapshots. -/
theorem c9_ingestion_errors_witness :
    ("❌ Skipping file " ++ "stats_may_2025.xlsx" ++ " — missing required columns.")
        ∈ (ingest mixedEntries).1
      ∧ ("⚠️ Could not parse date from file: " ++ "nodate.xlsx") ∈ (ingest mixedEntries).1
      ∧ (run mixedEntries).2 = Except.ok (engineOf (ingest mixedEntries).2) := by
  have h := c9_ingestion_errors mixedEntries
  refine ⟨?_, ?_, h.2.2.2 (by decide)⟩
  · exact (h.1 { name := "stats_may_2025.xlsx", cols := ["Product_Name"], rows := [] }
      (by unfold mixedEntries; exact List.mem_cons_self _ _) (by decide)).1 (by decide)
  · exact (h.1 { name := "nodate.xlsx", cols := requiredCols, rows := [] }
      (by unfold mixedEntries; exact List.mem_cons_of_mem _ (List.mem_cons_self _ _))
      (by decide)).2 (by decide) (by decide)

/-! ### Claim C10: the selected-product path has no length guard -/

/-- C10: on a concrete valid upload where product B appears in only one of
the two monthly sheets, the run succeeds; B's selected-product series is a
single observation (one distinct ordinal), yet the selected-product path
fits and emits all 30 forecast rows — no minimum-observation precondition
and no fault — while the guarded all-products summary has a row for A (two
observations) but none for B. -/
theorem c10_selected_path_unguarded :
    (run twoMonthEntries).2 = Except.ok (engineOf (ingest twoMonthEntries).2)
      ∧ (histSel (historyOf (ingest twoMonthEntries).2) "B").length = 1
      ∧ (selForecast (historyOf (ingest twoMonthEntries).2) "B").length = 30
      ∧ ("B" ∉ (all_forecasts (historyOf (ingest twoMonthEntries).2)).map
            fun s => s.Product_Name)
      ∧ ("A" ∈ (all_forecasts (historyOf (ingest twoMonthEntries).2)).map
            fun s => s.Product_Name) := by
  refine ⟨?_, by decide, by decide, ?_, ?_⟩
  · unfold run
    rw [if_neg (by decide)]
  · rw [mem_all_forecasts]
    decide
  · rw [mem_all_forecasts]
    decide

/-! ### Claim C1: what the summary row's quantity actually is -/

/-- Every summary row is the single-point forecast row of an admitted
product, and vice versa: the quantity field is the rounded prediction at
one calendar month after the product's last observed date (see
`summaryRowOf`), not a sum over the 30-day window; the row carries only
the product name and the two forecast numbers. -/
theorem c1_summary_row (history : List HistRow) (r : SummaryRow) :
    (r ∈ all_forecasts history
      ↔ ∃ p, p ∈ history.map (fun hr => hr.product)
          ∧ 2 ≤ (hist_prod history p).length
          ∧ r = summaryRowOf (hist_prod history p) p)
      ∧ ∀ q : String,
          (summaryRowOf (hist_prod history q) q).Forecasted_30d_Quantity
            = pyRound (predictAt (qtyPairs (hist_prod history q))
                ((toordinal (addMonths1 (maxDateH (hist_prod history q)))) : ℚ))
          ∧ (summaryRowOf (hist_prod history q) q).Forecasted_Sales_Value
            = round2 (predictAt (valPairs (hist_prod history q))
                ((toordinal (addMonths1 (maxDateH (hist_prod history q)))) : ℚ)) := by
  refine ⟨⟨?_, ?_⟩, fun q => ⟨rfl, rfl⟩⟩
  · intro hr
    obtain ⟨q, hq, hfq⟩ := List.mem_filterMap.mp hr
    by_cases hlen : 2 ≤ (hist_prod history q).length
    · rw [if_pos hlen] at hfq
      exact ⟨q, (mem_sortedProducts _ _).mp hq, hlen, (Option.some_inj.mp hfq).symm⟩
    · rw [if_neg hlen] at hfq
      cases hfq
  · rintro ⟨p, hp, hlen, rfl⟩
    refine List.mem_filterMap.mpr ⟨p, (mem_sortedProducts _ _).mpr hp, ?_⟩
    rw [if_pos hlen]

/-- C1 counterexample.  On `histA` (0 units on 2025-05-01, 31 on
2025-06-01; fitted line `qty = ordinal − ord(2025-05-01)`) the summary
stores `round(prediction at 2025-07-01) = 61`, while the claimed
`round(sum of the 30 forecast-window predictions)` is
`32 + 33 + ... + 61 = 1395`: the stored quantity is a one-point forecast,
not the rounded window sum.  The summary row also carries no historical
average, predicted average, growth percentage or alert label. -/
theorem c1_counterexample :
    all_forecasts histA
        = [{ Product_Name := "A", Forecasted_30d_Quantity := 61,
             Forecasted_Sales_Value := 61 }]
      ∧ claimedTotalForecast (hist_prod histA "A") = 1395
      ∧ (61 : ℤ) ≠ 1395 := by
  have hhp : hist_prod histA "A" = histA := by decide
  have hq : qtyPairs histA = [((739372 : ℚ), 0), ((739403 : ℚ), 31)] := by decide
  have hv : valPairs histA = [((739372 : ℚ), 0), ((739403 : ℚ), 31)] := by decide
  have htarget : toordinal (addMonths1 (maxDateH histA)) = 739433 := by decide
  have hpred : predictAt [((739372 : ℚ), 0), ((739403 : ℚ), 31)] 739433 = 61 := by
    norm_num [predictAt, fitSlope, fitIntercept, sxy, sxx, xbar, ybar]
  have hcast : ((toordinal (addMonths1 (maxDateH (hist_prod histA "A")))) : ℚ)
      = 739433 := by
    rw [hhp, htarget]
    norm_num
  have hqty : pyRound (predictAt (qtyPairs (hist_prod histA "A"))
      ((toordinal (addMonths1 (maxDateH (hist_prod histA "A")))) : ℚ)) = 61 := by
    rw [hcast, hhp, hq, hpred]
    norm_num [pyRound]
  have hval : round2 (predictAt (valPairs (hist_prod histA "A"))
      ((toordinal (addMonths1 (maxDateH (hist_prod histA "A")))) : ℚ)) = 61 := by
    rw [hcast, hhp, hv, hpred]
    norm_num [round2, pyRound]
  refine ⟨?_, ?_, by norm_num⟩
  · have hsp : sortedProducts histA = ["A"] := by decide
    have hrow : summaryRowOf (hist_prod histA "A") "A"
        = { Product_Name := "A", Forecasted_30d_Quantity := 61,
            Forecasted_Sales_Value := 61 } := by
      unfold summaryRowOf
      rw [hqty, hval]
    have hstep : (if 2 ≤ (hist_prod histA "A").length
        then some (summaryRowOf (hist_prod histA "A") "A") else none)
        = some (summaryRowOf (hist_prod histA "A") "A") := by
      rw [if_pos (by decide)]
    unfold all_forecasts
    rw [hsp, @List.filterMap_cons_some _ _
        (fun p => if 2 ≤ (hist_prod histA p).length
          then some (summaryRowOf (hist_prod histA p) p) else none)
        "A" [] (summaryRowOf (hist_prod histA "A") "A") hstep,
      List.filterMap_nil, hrow]
  · have hmax : maxOrdinal histA = 739403 := by decide
    have hfo : futureOrdinals 739403 = [739404, 739405, 739406, 739407, 739408, 739409, 739410, 739411, 739412, 739413, 739414, 739415, 739416, 739417, 739418, 739419, 739420, 739421, 739422, 739423, 739424, 739425, 739426, 739427, 739428, 739429, 739430, 739431, 739432, 739433] := by decide
    unfold claimedTotalForecast
    rw [hhp, hmax, hfo, hq]
    norm_num [predictAt, fitSlope, fitIntercept, sxy, sxx, xbar, ybar, pyRound]
